import Mathlib

/-!
Verification of the quota-check discovery pipeline (src/check-quota.ts).

The script locates a running language-server process, extracts a CSRF token
from its command line, discovers the ports the process listens on, probes
the candidate ports and resolves a working endpoint.  This development is a
shallow embedding of that pipeline: strings are lists of characters, the
regular expressions of the source are modelled by explicit leftmost-match
scanners, and the external commands (process listing, socket-state tools,
HTTP probes) are parameters of the pure pipeline functions.
-/

namespace CheckQuota

/-! ## Character classes

The JavaScript regex classes used by the source.  The whitespace class
models the ASCII part of the regex class backslash-s (all whitespace that
occurs in the tool outputs the script consumes). -/

/-- Whitespace as matched by the regex whitespace class (ASCII part). -/
def isSpaceJS (c : Char) : Bool :=
  c = ' ' || c = '\t' || c = '\n' || c = '\r' || c = '\x0b' || c = '\x0c'

/-- Decimal digit, regex class d. -/
def isDigit (c : Char) : Bool := '0' ≤ c && c ≤ '9'

/-- Character class of the token capture group in
`--csrf_token[=\s]+([a-f0-9-]+)` under the case-insensitive flag `i`:
hex digits of either case, decimal digits, and the hyphen. -/
def isTokenChar (c : Char) : Bool :=
  ('a' ≤ c && c ≤ 'f') || ('A' ≤ c && c ≤ 'F') || isDigit c || c = '-'

/-- Character class `[=\s]` separating the flag from the token value. -/
def isSepChar (c : Char) : Bool := c = '=' || isSpaceJS c

/-- Lower-casing of ASCII letters, used to model the regex flag `i`. -/
def lcase (c : Char) : Char :=
  if 'A' ≤ c && c ≤ 'Z' then Char.ofNat (c.toNat + 32) else c

/-! ## List-of-characters utilities mirroring the JavaScript string ops -/

/-- Numeric value of a decimal digit string, as computed by
`parseInt(digits, 10)` on an all-digit input. -/
def digitsToNat (ds : List Char) : Nat :=
  ds.foldl (fun n c => n * 10 + (c.toNat - '0'.toNat)) 0

/-- Splitting on the newline character, as `s.split('\n')` does: the empty
text yields one empty line, and every newline opens a new line. -/
def splitLines : List Char → List (List Char)
  | [] => [[]]
  | c :: rest =>
    if c = '\n' then [] :: splitLines rest
    else
      match splitLines rest with
      | [] => [[c]]
      | l :: ls => (c :: l) :: ls

/-- A text all of whose characters are whitespace; `s.trim()` is empty (so
falsy in the source's guards) exactly on such texts. -/
def isBlank (l : List Char) : Bool := l.all isSpaceJS

/-- The result of `s.trim()`: leading and trailing whitespace removed. -/
def trimChars (l : List Char) : List Char :=
  ((l.dropWhile isSpaceJS).reverse.dropWhile isSpaceJS).reverse

/-- First field of `line.trim().split(/\s+/)`: the source only reads
`parts[0]`, which is the maximal run of non-whitespace characters at the
start of the trimmed line (empty when the line is blank). -/
def firstField (l : List Char) : List Char :=
  (l.dropWhile isSpaceJS).takeWhile (fun c => !isSpaceJS c)

/-- Model of `parseInt(s, 10)` on the pid field: the value of the maximal
run of leading decimal digits, `none` when there is none (`NaN`). -/
def parsePid (l : List Char) : Option Nat :=
  let ds := l.takeWhile isDigit
  if ds.isEmpty then none else some (digitsToNat ds)

end CheckQuota

namespace CheckQuota

/-! ## Credential extraction (Process Locator)

`line.match` against the pattern `--csrf_token[=\s]+([a-f0-9-]+)` with
flag `i` (check-quota.ts, lines 51 and 68).  The match is the leftmost position at which the literal
`--csrf_token` occurs case-insensitively, followed by at least one
separator character and at least one token character; the capture is the
maximal token-character run there.  (The separator and token classes are
disjoint, so the greedy quantifiers never backtrack across each other.) -/

/-- The credential flag literal of the regex. -/
def csrfFlag : List Char := "--csrf_token".toList

/-- Case-insensitive literal match: strips `pat` from the front of `l`
comparing characters after ASCII lower-casing. -/
def stripCI : List Char → List Char → Option (List Char)
  | [], l => some l
  | _ :: _, [] => none
  | p :: ps, c :: cs => if lcase c = lcase p then stripCI ps cs else none

/-- Attempt of the token regex anchored at the start of `l`: the flag
literal (case-insensitive), one or more separator characters, then the
captured maximal run of token characters. -/
def tryMatchAt (l : List Char) : Option (List Char) :=
  match stripCI csrfFlag l with
  | none => none
  | some r1 =>
    let seps := r1.takeWhile isSepChar
    let r2 := r1.dropWhile isSepChar
    if seps.isEmpty then none
    else
      let tok := r2.takeWhile isTokenChar
      if tok.isEmpty then none else some tok

/-- Leftmost match of the token regex over the whole line, as
`String.prototype.match` with a non-global regex: the attempt is made at
every position left to right and the first success wins. -/
def extractToken : List Char → Option (List Char)
  | [] => none
  | c :: rest =>
    match tryMatchAt (c :: rest) with
    | some tok => some tok
    | none => extractToken rest

/-- Whether the flag literal occurs case-insensitively anywhere in `l`. -/
def hasFlagCI : List Char → Bool
  | [] => false
  | c :: rest => (stripCI csrfFlag (c :: rest)).isSome || hasFlagCI rest

end CheckQuota

namespace CheckQuota

/-! ## Port parsing and tool fallback (Port Discoverer)

`getListeningPorts` (check-quota.ts, lines 151-189) runs the platform's
socket-inspection commands in order, keeps the first non-blank stdout, and
scans each of its lines with the pattern
`(?:127\.0\.0\.1|localhost|0\.0\.0\.0|\[::1\]|\*):(\d+)`
collecting the captured port numbers with order-preserving
deduplication.  The five address alternatives begin with five distinct
characters, so at any position at most one of them can match and the
regex engine's alternative order is immaterial. -/

/-- Exact literal match: strips `pat` from the front of `l`. -/
def stripLit : List Char → List Char → Option (List Char)
  | [], l => some l
  | _ :: _, [] => none
  | p :: ps, c :: cs => if c = p then stripLit ps cs else none

/-- The loopback-equivalent and wildcard address alternatives of the port
regex, in the order they are written. -/
def addrLits : List (List Char) :=
  ["127.0.0.1".toList, "localhost".toList, "0.0.0.0".toList,
   "[::1]".toList, "*".toList]

/-- First address alternative that matches at the front of `l`, returning
the rest of the line after it. -/
def stripAddr (l : List Char) : Option (List Char) :=
  match addrLits.findSome? (fun lit => stripLit lit l) with
  | some r => some r
  | none => none

/-- Attempt of the port regex anchored at the start of `l`: an address
alternative, a colon, then the captured maximal run of digits. -/
def tryAddrAt (l : List Char) : Option Nat :=
  match stripAddr l with
  | none => none
  | some r =>
    match r with
    | [] => none
    | c :: r2 =>
      if c = ':' then
        let ds := r2.takeWhile isDigit
        if ds.isEmpty then none else some (digitsToNat ds)
      else none

/-- Leftmost match of the port regex over one line of tool output. -/
def lineMatch : List Char → Option Nat
  | [] => none
  | c :: rest =>
    match tryAddrAt (c :: rest) with
    | some p => some p
    | none => lineMatch rest

/-- The collection loop of `getListeningPorts` (lines 177-187): one pass
over the lines, pushing each matched port unless already present
(`ports.includes(port)`). -/
def collectPorts (lines : List (List Char)) : List Nat :=
  lines.foldl
    (fun acc line =>
      match lineMatch line with
      | some p => if p ∈ acc then acc else acc ++ [p]
      | none => acc) []

/-- Port parsing of one tool's stdout: split into lines and collect. -/
def getPortsFromOutput (text : List Char) : List Nat :=
  collectPorts (splitLines text)

/-- The tool-fallback loop (lines 165-175): each entry is `none` when the
invocation threw (missing binary, permission) and `some stdout` when it
succeeded; the loop ignores failures, keeps the first stdout whose trim is
non-empty, and leaves `portStdout` empty otherwise. -/
def pickToolOutput : List (Option (List Char)) → List Char
  | [] => []
  | none :: rest => pickToolOutput rest
  | some s :: rest => if isBlank s then pickToolOutput rest else s

/-- Whole Port Discoverer on the outcomes of its tool invocations: parse
the first usable stdout (the empty set when every tool failed or printed
nothing). -/
def getListeningPorts (outs : List (Option (List Char))) : List Nat :=
  getPortsFromOutput (pickToolOutput outs)

end CheckQuota

namespace CheckQuota

/-! ## Candidates and the Resolver pipeline (main, check-quota.ts lines 13-149) -/

/-- A matched process: its pid and the CSRF token extracted from its
command line. -/
structure ProcessCandidate where
  pid : Nat
  csrfToken : List Char
  deriving DecidableEq, Repr

/-- A discovered listening port together with the token and pid of the
candidate that reported it. -/
structure PortCandidate where
  port : Nat
  token : List Char
  pid : Nat
  deriving DecidableEq, Repr

/-- Candidate extraction from one line of the Unix process listing
(lines 64-76): `parts[0]` parsed as the pid, the token regex matched on
the whole line; a candidate is pushed when both succeed. -/
def lineCandidate (line : List Char) : Option ProcessCandidate :=
  match parsePid (firstField (trimChars line)), extractToken line with
  | some pv, some tok => some ⟨pv, tok⟩
  | _, _ => none

/-- The extraction loop over every line of the listing stdout. -/
def extractCandidates (lines : List (List Char)) : List ProcessCandidate :=
  lines.filterMap lineCandidate

/-- One insertion into the JavaScript `Map` built at line 84: an existing
key keeps its position but its value is overwritten; a new key is appended. -/
def mapUpsert (m : List (Nat × ProcessCandidate)) (k : Nat) (v : ProcessCandidate) :
    List (Nat × ProcessCandidate) :=
  if m.any (fun e => e.1 = k) then
    m.map (fun e => if e.1 = k then (k, v) else e)
  else m ++ [(k, v)]

/-- The `Map` of pid to candidate after inserting every candidate in order. -/
def buildPidMap (cs : List ProcessCandidate) : List (Nat × ProcessCandidate) :=
  cs.foldl (fun m c => mapUpsert m c.pid c) []

/-- Deduplication by pid (line 84):
`Array.from(new Map(candidates.map(item => [item.pid, item])).values())`. -/
def dedupeByPid (cs : List ProcessCandidate) : List ProcessCandidate :=
  (buildPidMap cs).map (fun e => e.2)

/-- The fan-out of lines 91-102: every unique candidate's ports (the
`discover` parameter abstracts `getListeningPorts`, whose errors are
swallowed to an empty list), flattened into `PortCandidate`s carrying the
discovering candidate's token. -/
def gatherPorts (cands : List ProcessCandidate) (discover : Nat → List Nat) :
    List PortCandidate :=
  (cands.map (fun c => (discover c.pid).map (fun p => PortCandidate.mk p c.csrfToken c.pid))).flatten

/-- Order-preserving port deduplication of line 113:
`Array.from(new Set(allPorts.map(p => p.port)))`. -/
def uniquePorts (ps : List Nat) : List Nat :=
  ps.foldl (fun acc p => if p ∈ acc then acc else acc ++ [p]) []

/-- The probe verdict recorded for one unique port by the map of lines
117-126: the first candidate carrying the port is looked up
(`allPorts.find(wp => wp.port === p)`), its token is used for the probe,
and a successful probe yields the `(port, token)` pair, every other
outcome `null`. -/
def portVerdict (probe : Nat → List Char → Bool) (allPorts : List PortCandidate)
    (p : Nat) : Option (Nat × List Char) :=
  match allPorts.find? (fun wp => wp.port = p) with
  | none => none
  | some c => if probe p c.token then some (p, c.token) else none

/-- The probing stage (lines 113-129): `Promise.all` awaits every unique
port's verdict in list order, then `results.find(r => r !== null)` picks
the first non-null verdict. -/
def probeStage (probe : Nat → List Char → Bool) (allPorts : List PortCandidate) :
    Option (Nat × List Char) :=
  match ((uniquePorts (allPorts.map (fun c => c.port))).map
      (portVerdict probe allPorts)).find? (fun r => r.isSome) with
  | some r => r
  | none => none

/-- The terminal failures of the run, one per stage (the thrown errors of
lines 34, 80, 109 and 132). -/
inductive RunError where
  | processNotFound
  | noCredentialFound
  | noListeningPort
  | noRespondingEndpoint
  deriving DecidableEq, Repr

/-- The whole Resolver pipeline of `main` on the Unix path, as a function
of the process-listing stdout and of oracles for port discovery and
probing.  Besides the outcome it counts the port-discovery invocations
(one per unique candidate, line 92) and the probe invocations (one per
unique port, line 117), so that the absence of wasted I/O on early
failure is part of the model. -/
def runResolver (psOutput : List Char) (discover : Nat → List Nat)
    (probe : Nat → List Char → Bool) :
    Except RunError (Nat × List Char) × Nat × Nat :=
  if isBlank psOutput then (Except.error RunError.processNotFound, 0, 0)
  else
    let cands := extractCandidates (splitLines (trimChars psOutput))
    if cands.isEmpty then (Except.error RunError.noCredentialFound, 0, 0)
    else
      let uniq := dedupeByPid cands
      let allPorts := gatherPorts uniq discover
      if allPorts.isEmpty then (Except.error RunError.noListeningPort, uniq.length, 0)
      else
        let nProbes := (uniquePorts (allPorts.map (fun c => c.port))).length
        match probeStage probe allPorts with
        | some r => (Except.ok r, uniq.length, nProbes)
        | none => (Except.error RunError.noRespondingEndpoint, uniq.length, nProbes)

end CheckQuota

namespace CheckQuota

/-! ## The Port Prober (testPort, check-quota.ts lines 194-220)

The probe issues one HTTPS request and settles the surrounding promise
from one of three event handlers: the response callback resolves with
`statusCode === 200`, the error handler resolves `false`, and the timeout
handler destroys the request and resolves `false`.  `fetchUserStatus`
(lines 225-266), by contrast, does reject. -/

/-- The event that settles a single probe request. -/
inductive ProbeEvent where
  | response (status : Nat)
  | connError
  | timeoutFired
  deriving DecidableEq, Repr

/-- How a promise settles. -/
inductive Settle (α : Type) where
  | resolved (a : α)
  | rejected
  deriving DecidableEq, Repr

/-- The settlement of the promise returned by `testPort`, one case per
event handler of lines 211-216. -/
def testPortSettle : ProbeEvent → Settle Bool
  | ProbeEvent.response status => Settle.resolved (status = 200)
  | ProbeEvent.connError => Settle.resolved false
  | ProbeEvent.timeoutFired => Settle.resolved false

/-- The boolean verdict of `testPort`, read off its settlement. -/
def testPort (e : ProbeEvent) : Bool :=
  match testPortSettle e with
  | Settle.resolved b => b
  | Settle.rejected => false

/-- The event that settles one `fetchUserStatus` request (lines 247-262):
a 200 response with a body that parses resolves; a 200 response with an
unparseable body rejects; a non-200 status rejects; a request error
rejects. -/
def fetchSettle (status : Nat) (bodyParses : Bool) : Settle Unit :=
  if status = 200 then
    if bodyParses then Settle.resolved () else Settle.rejected
  else Settle.rejected

/-- `Promise.all` semantics on settlements: resolves with the list of
values when every promise resolves, rejects as soon as any rejects. -/
def promiseAll {α : Type} : List (Settle α) → Settle (List α)
  | [] => Settle.resolved []
  | Settle.rejected :: _ => Settle.rejected
  | Settle.resolved a :: rest =>
    match promiseAll rest with
    | Settle.resolved as => Settle.resolved (a :: as)
    | Settle.rejected => Settle.rejected

/-- The settlement of the whole promise returned by `testPort` as a
function of the port it was called with.  The promise executor (lines
195-219) calls `https.request` with the parsed port and no try/catch
around it; the Node runtime validates the port synchronously on the way
to the socket (`net` validatePort), so a port above 65535 — which the
Discoverer can deliver, since its parser applies no range check — makes
the executor throw ERR_SOCKET_BAD_PORT and the promise reject before any
handler is installed.  For an in-range port the request is issued and one
of the three handlers settles the promise. -/
def testPortRun (port : Nat) (e : ProbeEvent) : Settle Bool :=
  if port ≤ 65535 then testPortSettle e else Settle.rejected

end CheckQuota

namespace CheckQuota

/-! ## Auxiliary predicates used only to state the claims -/

/-- Character class named by the specification for extracted tokens:
lowercase hex digits and hyphens.  The source regex runs under the
case-insensitive flag, so this is strictly smaller than `isTokenChar`. -/
def isLowerTokenChar (c : Char) : Bool :=
  ('a' ≤ c && c ≤ 'f') || isDigit c || c = '-'

/-- The list is empty or starts with a character outside the token class
(so a greedy token capture ending right before it captures exactly the
run before it). -/
def headNotToken : List Char → Bool
  | [] => true
  | c :: _ => !isTokenChar c

/-- A tool invocation outcome that contributes nothing to the fallback
loop: the invocation threw, or its stdout trims to empty. -/
def failedOrBlank : Option (List Char) → Bool
  | none => true
  | some s => isBlank s

/-- Every port matched on this line is a valid TCP port number. -/
def lineInRange (line : List Char) : Bool :=
  match lineMatch line with
  | some q => decide (1 ≤ q ∧ q ≤ 65535)
  | none => true

/-- Whether the probe of one unique port succeeds (its recorded verdict is
non-null). -/
def probeOk (probe : Nat → List Char → Bool) (allPorts : List PortCandidate)
    (p : Nat) : Bool :=
  (portVerdict probe allPorts p).isSome

/-- Modelled from the spec: the selection rule the specification states
for the probing stage, namely the first port whose probe succeeds in the
order the probes complete (an arbitrary completion order of the unique
ports).  The source is compared against this rule. -/
def firstByCompletion (order : List Nat) (probe : Nat → List Char → Bool)
    (allPorts : List PortCandidate) : Option Nat :=
  order.find? (probeOk probe allPorts)

/-- Occurrence of `pat` as an exact substring of the line (used to state
which state markers a counterexample line carries). -/
def hasLit (pat : List Char) : List Char → Bool
  | [] => (stripLit pat ([] : List Char)).isSome
  | c :: rest => (stripLit pat (c :: rest)).isSome || hasLit pat rest

end CheckQuota

namespace CheckQuota

/-! ## General list lemmas used by the claim proofs -/

theorem takeWhile_append_all {α : Type} (p : α → Bool) (xs ys : List α)
    (h : xs.all p = true) : (xs ++ ys).takeWhile p = xs ++ ys.takeWhile p := by
  induction xs with
  | nil => simp
  | cons a t ih =>
    simp only [List.all_cons, Bool.and_eq_true] at h
    simp [List.takeWhile_cons, h.1, ih h.2]

theorem dropWhile_append_all {α : Type} (p : α → Bool) (xs ys : List α)
    (h : xs.all p = true) : (xs ++ ys).dropWhile p = ys.dropWhile p := by
  induction xs with
  | nil => simp
  | cons a t ih =>
    simp only [List.all_cons, Bool.and_eq_true] at h
    simp [List.dropWhile_cons, h.1, ih h.2]

theorem all_takeWhile {α : Type} (p : α → Bool) (l : List α) :
    (l.takeWhile p).all p = true := by
  induction l with
  | nil => simp
  | cons a t ih =>
    by_cases h : p a = true
    · simp [List.takeWhile_cons, h, ih]
    · simp [List.takeWhile_cons, Bool.eq_false_iff.mpr h]

theorem find?_append_none {α : Type} (f : α → Bool) (l1 l2 : List α)
    (h : ∀ x ∈ l1, f x = false) : (l1 ++ l2).find? f = l2.find? f := by
  induction l1 with
  | nil => simp
  | cons a t ih =>
    have ha := h a (by simp)
    simp only [List.cons_append, List.find?_cons, ha]
    exact ih (fun x hx => h x (by simp [hx]))

theorem find?_decomp {α : Type} (f : α → Bool) (l : List α) (c : α)
    (h : l.find? f = some c) :
    ∃ pre post, l = pre ++ c :: post ∧ f c = true ∧ ∀ d ∈ pre, f d = false := by
  induction l with
  | nil => simp at h
  | cons a t ih =>
    by_cases ha : f a = true
    · simp only [List.find?_cons, ha] at h
      cases h
      exact ⟨[], t, by simp, ha, by simp⟩
    · have ha2 : f a = false := Bool.eq_false_iff.mpr ha
      simp only [List.find?_cons, ha2] at h
      obtain ⟨pre, post, heq, hc, hpre⟩ := ih h
      exact ⟨a :: pre, post, by simp [heq], hc, by
        intro d hd
        rcases List.mem_cons.mp hd with rfl | hd2
        · exact ha2
        · exact hpre d hd2⟩

theorem countP_eq_one_of_nodup {α : Type} [DecidableEq α] (l : List α)
    (hl : l.Nodup) (p : α) (hp : p ∈ l) :
    l.countP (fun k => decide (k = p)) = 1 := by
  induction l with
  | nil => simp at hp
  | cons a t ih =>
    rw [List.nodup_cons] at hl
    rcases List.mem_cons.mp hp with rfl | hp2
    · have h0 : t.countP (fun k => decide (k = p)) = 0 := by
        rw [List.countP_eq_zero]
        intro k hk
        simp only [decide_eq_true_eq]
        intro rfl2
        exact hl.1 (rfl2 ▸ hk)
      simp [List.countP_cons, h0]
    · have ha : (decide (a = p)) = false := by
        simp only [decide_eq_false_iff_not]
        intro rfl2
        exact hl.1 (rfl2 ▸ hp2)
      simp [List.countP_cons, ha, ih hl.2 hp2]

end CheckQuota

namespace CheckQuota

/-! ## Lemmas about the deduplicating folds -/

theorem uniqueFold_spec (l : List Nat) :
    ∀ acc : List Nat, acc.Nodup →
      (l.foldl (fun acc p => if p ∈ acc then acc else acc ++ [p]) acc).Nodup ∧
      ∀ p, p ∈ l.foldl (fun acc p => if p ∈ acc then acc else acc ++ [p]) acc ↔
        p ∈ acc ∨ p ∈ l := by
  induction l with
  | nil => intro acc h; simpa using h
  | cons a t ih =>
    intro acc hacc
    by_cases ha : a ∈ acc
    · have := ih acc hacc
      refine ⟨by simpa [ha] using this.1, ?_⟩
      intro p
      rw [List.foldl_cons, if_pos ha, (this.2 p)]
      constructor
      · rintro (hp | hp)
        · exact Or.inl hp
        · exact Or.inr (by simp [hp])
      · rintro (hp | hp)
        · exact Or.inl hp
        · rcases List.mem_cons.mp hp with rfl | hp2
          · exact Or.inl ha
          · exact Or.inr hp2
    · have hacc2 : (acc ++ [a]).Nodup := by
        simp [List.nodup_append, hacc, List.disjoint_singleton]
        intro h2
        exact ha h2
      have := ih (acc ++ [a]) hacc2
      refine ⟨by simpa [ha] using this.1, ?_⟩
      intro p
      rw [List.foldl_cons, if_neg ha, (this.2 p)]
      simp only [List.mem_append, List.mem_singleton, List.mem_cons]
      tauto

/-- Membership in the uniquePorts deduplication. -/
theorem mem_uniquePorts (l : List Nat) (p : Nat) : p ∈ uniquePorts l ↔ p ∈ l := by
  have := (uniqueFold_spec l [] List.nodup_nil).2 p
  simpa [uniquePorts] using this

/-- The uniquePorts deduplication has no duplicates. -/
theorem uniquePorts_nodup (l : List Nat) : (uniquePorts l).Nodup :=
  (uniqueFold_spec l [] List.nodup_nil).1

/-- Membership in the port-collection fold of the Discoverer. -/
theorem collectPorts_mem (lines : List (List Char)) :
    ∀ acc p, p ∈ lines.foldl
        (fun acc line =>
          match lineMatch line with
          | some q => if q ∈ acc then acc else acc ++ [q]
          | none => acc) acc ↔
      p ∈ acc ∨ ∃ line ∈ lines, lineMatch line = some p := by
  induction lines with
  | nil => intro acc p; simp
  | cons ln t ih =>
    intro acc p
    rw [List.foldl_cons]
    cases hm : lineMatch ln with
    | none =>
      rw [ih]
      constructor
      · rintro (hp | ⟨l2, hl2, he⟩)
        · exact Or.inl hp
        · exact Or.inr ⟨l2, by simp [hl2], he⟩
      · rintro (hp | ⟨l2, hl2, he⟩)
        · exact Or.inl hp
        · rcases List.mem_cons.mp hl2 with rfl | hl3
          · rw [hm] at he; cases he
          · exact Or.inr ⟨l2, hl3, he⟩
    | some q =>
      rw [ih]
      have hstep : p ∈ (if q ∈ acc then acc else acc ++ [q]) ↔ p ∈ acc ∨ p = q := by
        by_cases hq : q ∈ acc
        · simp only [if_pos hq]
          constructor
          · exact Or.inl
          · rintro (hp | rfl)
            · exact hp
            · exact hq
        · simp [if_neg hq, List.mem_append]
      rw [hstep]
      constructor
      · rintro ((hp | rfl) | ⟨l2, hl2, he⟩)
        · exact Or.inl hp
        · exact Or.inr ⟨ln, by simp, hm⟩
        · exact Or.inr ⟨l2, by simp [hl2], he⟩
      · rintro (hp | ⟨l2, hl2, he⟩)
        · exact Or.inl (Or.inl hp)
        · rcases List.mem_cons.mp hl2 with rfl | hl3
          · rw [hm] at he
            cases he
            exact Or.inl (Or.inr rfl)
          · exact Or.inr ⟨l2, hl3, he⟩

/-- Membership in the parsed ports of one tool output. -/
theorem mem_getPortsFromOutput (text : List Char) (p : Nat) :
    p ∈ getPortsFromOutput text ↔
      ∃ line ∈ splitLines text, lineMatch line = some p := by
  have := collectPorts_mem (splitLines text) [] p
  simpa [getPortsFromOutput, collectPorts] using this

end CheckQuota

namespace CheckQuota

/-! ## Lemmas about the tool-fallback loop -/

theorem pickToolOutput_first (pre : List (Option (List Char))) (s : List Char)
    (post : List (Option (List Char)))
    (hpre : ∀ o ∈ pre, failedOrBlank o = true) (hs : isBlank s = false) :
    pickToolOutput (pre ++ some s :: post) = s := by
  induction pre with
  | nil => simp [pickToolOutput, hs]
  | cons o t ih =>
    have ho := hpre o (by simp)
    cases o with
    | none => simpa [pickToolOutput] using ih (fun x hx => hpre x (by simp [hx]))
    | some u =>
      have hu : isBlank u = true := ho
      simpa [pickToolOutput, hu] using ih (fun x hx => hpre x (by simp [hx]))

theorem pickToolOutput_all_failed (outs : List (Option (List Char)))
    (h : ∀ o ∈ outs, failedOrBlank o = true) : pickToolOutput outs = [] := by
  induction outs with
  | nil => rfl
  | cons o t ih =>
    have ho := h o (by simp)
    cases o with
    | none => simpa [pickToolOutput] using ih (fun x hx => h x (by simp [hx]))
    | some u =>
      have hu : isBlank u = true := ho
      simpa [pickToolOutput, hu] using ih (fun x hx => h x (by simp [hx]))

end CheckQuota

namespace CheckQuota

/-! ## Claim theorems: Port Prober and Port Discoverer -/

/-- C6.  For every port and token, the Port Prober returns `true` exactly
when the probe request receives an HTTP 200 status; any other status, a
connection failure, or exceeding the fixed timeout yields `false`.  The
embedding issues one request per call (`testPort` is a function of the one
event that settles that request), so no retry exists. -/
theorem testPort_true_iff_status200 (e : ProbeEvent) :
    testPort e = true ↔ e = ProbeEvent.response 200 := by
  cases e with
  | response s => simp [testPort, testPortSettle]
  | connError => simp [testPort, testPortSettle]
  | timeoutFired => simp [testPort, testPortSettle]

/-- Auxiliary: every event handler of `testPort` resolves the promise. -/
theorem testPortSettle_resolved (e : ProbeEvent) :
    testPortSettle e = Settle.resolved (testPort e) := by
  cases e <;> rfl

/-- C10 counterexample.  Port 70000 is reachable (the Discoverer's parser
applies no range check), and on it the `testPort` promise rejects — the
executor's synchronous `https.request` throw, not any handler, settles it
— so the `Promise.all` over the sibling probes rejects as well: one bad
port aborts the probing of its siblings. -/
theorem c10_bad_port_cex :
    getPortsFromOutput "u 127.0.0.1:70000 LISTEN".toList = [70000] ∧
    testPortRun 70000 ProbeEvent.timeoutFired = Settle.rejected ∧
    promiseAll [testPortRun 4050 (ProbeEvent.response 200),
        testPortRun 70000 ProbeEvent.timeoutFired] = Settle.rejected := by
  refine ⟨by decide, by decide, by decide⟩

/-- C10 amended.  For every in-range port (at most 65535) the `testPort`
promise settles by resolving to a boolean — every handler calls resolve —
so a `Promise.all` over probes of in-range ports always resolves and no
in-range port's failing probe can abort its siblings; for a port above
65535, however, the executor's synchronous throw rejects the promise. -/
theorem testPortRun_resolves_in_range :
    (∀ port e, port ≤ 65535 → testPortRun port e = Settle.resolved (testPort e)) ∧
    (∀ runs : List (Nat × ProbeEvent), (∀ r ∈ runs, r.1 ≤ 65535) →
      promiseAll (runs.map (fun r => testPortRun r.1 r.2))
        = Settle.resolved (runs.map (fun r => testPort r.2))) ∧
    (∀ port e, 65535 < port → testPortRun port e = Settle.rejected) := by
  have hres : ∀ port e, port ≤ 65535 →
      testPortRun port e = Settle.resolved (testPort e) := by
    intro port e h
    unfold testPortRun
    rw [if_pos h, testPortSettle_resolved]
  refine ⟨hres, ?_, ?_⟩
  · intro runs hruns
    induction runs with
    | nil => rfl
    | cons r t ih =>
      rw [List.map_cons, List.map_cons, hres r.1 r.2 (hruns r (by simp))]
      unfold promiseAll
      rw [ih (fun x hx => hruns x (by simp [hx]))]
  · intro port e h
    unfold testPortRun
    rw [if_neg (by omega)]

/-- C5.  The Port Discoverer tries its socket-inspection tools in order:
a failed invocation or a blank stdout is swallowed and the next tool is
tried; the first non-blank stdout is the one parsed; when every tool
fails or trims to empty the result is the empty set, and likewise when
the chosen stdout has no matching line. -/
theorem getListeningPorts_fallback :
    (∀ pre s post, (∀ o ∈ pre, failedOrBlank o = true) → isBlank s = false →
      getListeningPorts (pre ++ some s :: post) = getPortsFromOutput s) ∧
    (∀ outs, (∀ o ∈ outs, failedOrBlank o = true) → getListeningPorts outs = []) ∧
    (∀ outs, (∀ line ∈ splitLines (pickToolOutput outs), lineMatch line = none) →
      getListeningPorts outs = []) := by
  refine ⟨?_, ?_, ?_⟩
  · intro pre s post hpre hs
    unfold getListeningPorts
    rw [pickToolOutput_first pre s post hpre hs]
  · intro outs h
    unfold getListeningPorts
    rw [pickToolOutput_all_failed outs h]
    rfl
  · intro outs h
    rw [List.eq_nil_iff_forall_not_mem]
    intro p hp
    obtain ⟨line, hline, hm⟩ :=
      (mem_getPortsFromOutput (pickToolOutput outs) p).mp hp
    rw [h line hline] at hm
    cases hm

/-- C2 counterexample.  A line that carries no listening-state marker
(it is marked ESTABLISHED) still contributes its loopback port: the
parser of `getListeningPorts` applies no listening-state filter. -/
theorem c2_state_marker_cex :
    hasLit "LISTEN".toList "tcp 127.0.0.1:4050 ESTABLISHED".toList = false ∧
    hasLit "ESTABLISHED".toList "tcp 127.0.0.1:4050 ESTABLISHED".toList = true ∧
    getPortsFromOutput "tcp 127.0.0.1:4050 ESTABLISHED".toList = [4050] := by
  refine ⟨by decide, by decide, by decide⟩

/-- C2 amended.  A port is collected from a line exactly when the line
contains a loopback-equivalent or wildcard address:port form — with no
regard to listening-state markers, whose filtering is left to the tool
invocations themselves — and the spec's listening example yields exactly
{4050, 9090}. -/
theorem c2_port_parsing_amended :
    (∀ text p, p ∈ getPortsFromOutput text ↔
      ∃ line ∈ splitLines text, lineMatch line = some p) ∧
    getPortsFromOutput "tcp 127.0.0.1:4050 LISTEN\ntcp 0.0.0.0:9090 LISTEN".toList
      = [4050, 9090] :=
  ⟨fun text p => mem_getPortsFromOutput text p, by decide⟩

/-- C4 counterexample.  The Discoverer applies no range check to the
digits it parses: a tool output carrying `127.0.0.1:70000` produces the
out-of-range port 70000. -/
theorem c4_port_range_cex :
    getPortsFromOutput "u 127.0.0.1:70000 LISTEN".toList = [70000] ∧
    ¬ (70000 ≤ 65535) := by
  refine ⟨by decide, by decide⟩

/-- C4 amended.  Every collected port is the number parsed from the digit
run of some matching line; the 1-65535 bound therefore holds exactly when
the tool output only carries in-range address:port matches (the code
itself enforces no range). -/
theorem c4_port_range_amended (text : List Char)
    (h : ∀ line ∈ splitLines text, lineInRange line = true) :
    ∀ p ∈ getPortsFromOutput text, 1 ≤ p ∧ p ≤ 65535 := by
  intro p hp
  obtain ⟨line, hline, hm⟩ := (mem_getPortsFromOutput text p).mp hp
  have h2 := h line hline
  unfold lineInRange at h2
  rw [hm] at h2
  exact of_decide_eq_true h2

/-- C4 witness: the amended bound applied to a concrete in-range output. -/
theorem c4_port_range_witness :
    (∀ line ∈ splitLines "tcp 127.0.0.1:4050 LISTEN".toList, lineInRange line = true) ∧
    (1 ≤ 4050 ∧ 4050 ≤ 65535) :=
  ⟨by decide, c4_port_range_amended "tcp 127.0.0.1:4050 LISTEN".toList (by decide)
    4050 (by decide)⟩

end CheckQuota

namespace CheckQuota

/-! ## Claim theorems: the probing stage of the Resolver -/

/-- Reduction of `portVerdict` when the lookup of the first reporting
candidate succeeds. -/
theorem portVerdict_find_some (probe : Nat → List Char → Bool)
    (allPorts : List PortCandidate) (p : Nat) (c : PortCandidate)
    (hc : allPorts.find? (fun wp => wp.port = p) = some c) :
    portVerdict probe allPorts p =
      if probe p c.token then some (p, c.token) else none := by
  unfold portVerdict
  rw [hc]

/-- Reduction of `portVerdict` when no candidate reported the port. -/
theorem portVerdict_find_none (probe : Nat → List Char → Bool)
    (allPorts : List PortCandidate) (p : Nat)
    (hc : allPorts.find? (fun wp => wp.port = p) = none) :
    portVerdict probe allPorts p = none := by
  unfold portVerdict
  rw [hc]

/-- C1 counterexample.  Two candidate ports whose probes both succeed: the
code (which awaits every probe and scans the verdicts in deduplicated
list order) returns port 9090, the first of the list, while selection by
completion time under the completion order [4050, 9090] — a permutation
of the same unique ports — would return port 4050. -/
theorem c1_completion_order_cex :
    (uniquePorts (([⟨9090, "t1".toList, 1⟩, ⟨4050, "t2".toList, 2⟩] :
        List PortCandidate).map (fun w => w.port))).Perm [4050, 9090] ∧
    probeStage (fun _ _ => true)
        [⟨9090, "t1".toList, 1⟩, ⟨4050, "t2".toList, 2⟩] = some (9090, "t1".toList) ∧
    firstByCompletion [4050, 9090] (fun _ _ => true)
        [⟨9090, "t1".toList, 1⟩, ⟨4050, "t2".toList, 2⟩] = some 4050 ∧
    some (9090 : Nat) ≠ some (4050 : Nat) := by
  refine ⟨by decide, by decide, by decide, by decide⟩

/-- C1 amended.  The Resolver awaits every probe and returns the
`(port, token)` of the first port in the deduplicated discovery order
whose probe succeeded, with the token of the candidate that first
reported that port; in particular, when only one port's probe succeeds,
that port's pair is returned regardless of where it sits in the order. -/
theorem probeStage_first_in_order (probe : Nat → List Char → Bool)
    (allPorts : List PortCandidate) (pre : List Nat) (p : Nat) (post : List Nat)
    (c : PortCandidate)
    (hsplit : uniquePorts (allPorts.map (fun w => w.port)) = pre ++ p :: post)
    (hpre : ∀ q ∈ pre, probeOk probe allPorts q = false)
    (hp : probeOk probe allPorts p = true)
    (hc : allPorts.find? (fun wp => wp.port = p) = some c) :
    probeStage probe allPorts = some (p, c.token) := by
  have hprobe : probe p c.token = true := by
    unfold probeOk at hp
    rw [portVerdict_find_some probe allPorts p c hc] at hp
    by_cases hb : probe p c.token = true
    · exact hb
    · simp [Bool.eq_false_iff.mpr hb] at hp
  have hvp : portVerdict probe allPorts p = some (p, c.token) := by
    rw [portVerdict_find_some probe allPorts p c hc, if_pos hprobe]
  unfold probeStage
  rw [hsplit, List.map_append, List.map_cons, hvp]
  rw [find?_append_none _ _ _ (by
    intro x hx
    obtain ⟨q, hq, rfl⟩ := List.mem_map.mp hx
    have := hpre q hq
    unfold probeOk at this
    simpa using this)]
  rw [List.find?_cons_of_pos _ (by rfl)]

/-- C1 witness: a run in which only the later-listed port 4050 answers;
the Resolver returns `(4050, t2)`. -/
theorem probeStage_first_in_order_witness :
    probeStage (fun p _ => p = 4050)
      [⟨9090, "t1".toList, 1⟩, ⟨4050, "t2".toList, 2⟩] = some (4050, "t2".toList) :=
  probeStage_first_in_order (fun p _ => p = 4050)
    [⟨9090, "t1".toList, 1⟩, ⟨4050, "t2".toList, 2⟩] [9090] 4050 []
    ⟨4050, "t2".toList, 2⟩ (by decide) (by decide) (by decide) (by decide)

/-- C9.  Every reported port appears exactly once in the deduplicated
probe list, and whenever the probing stage returns `(q, t)`, the token
`t` is the token of the first candidate in the flattened list that
reported port `q`. -/
theorem uniquePorts_first_reporter (probe : Nat → List Char → Bool)
    (allPorts : List PortCandidate) :
    (∀ p ∈ allPorts.map (fun w => w.port),
      (uniquePorts (allPorts.map (fun w => w.port))).countP
        (fun k => decide (k = p)) = 1) ∧
    (∀ q t, probeStage probe allPorts = some (q, t) →
      ∃ pre c post, allPorts = pre ++ c :: post ∧ c.port = q ∧ c.token = t ∧
        ∀ d ∈ pre, d.port ≠ q) := by
  constructor
  · intro p hp
    exact countP_eq_one_of_nodup _ (uniquePorts_nodup _) p
      ((mem_uniquePorts _ p).mpr hp)
  · intro q t hq
    unfold probeStage at hq
    cases hfind : ((uniquePorts (allPorts.map (fun w => w.port))).map
        (portVerdict probe allPorts)).find? (fun r => r.isSome) with
    | none => rw [hfind] at hq; cases hq
    | some r =>
      rw [hfind] at hq
      cases hq
      have hmem := List.mem_of_find?_eq_some hfind
      obtain ⟨p0, _, hv⟩ := List.mem_map.mp hmem
      cases hc : allPorts.find? (fun wp => wp.port = p0) with
      | none =>
        rw [portVerdict_find_none probe allPorts p0 hc] at hv
        cases hv
      | some c =>
        rw [portVerdict_find_some probe allPorts p0 c hc] at hv
        by_cases hb : probe p0 c.token = true
        · rw [if_pos hb] at hv
          cases hv
          obtain ⟨pre, post, heq, hfc, hpre⟩ := find?_decomp _ _ _ hc
          refine ⟨pre, c, post, heq, of_decide_eq_true hfc, rfl, ?_⟩
          intro d hd
          have := hpre d hd
          simpa using this
        · rw [if_neg hb] at hv
          cases hv

end CheckQuota

namespace CheckQuota

/-! ## Claim theorems: zero-candidate termination (Resolver stage 1) -/

/-- C7 counterexample.  A non-empty process listing in which no line
carries a token yields zero candidates, yet the run terminates with the
no-credential failure, not with process-not-found (and still performs no
port-discovery and no probe). -/
theorem c7_zero_candidates_cex :
    extractCandidates (splitLines (trimChars "12 sh".toList)) = [] ∧
    runResolver "12 sh".toList (fun _ => [4050]) (fun _ _ => true)
      = (Except.error RunError.noCredentialFound, 0, 0) ∧
    RunError.noCredentialFound ≠ RunError.processNotFound := by
  refine ⟨by decide, by rfl, by decide⟩

/-- C7 amended.  When the Locator stage yields zero candidates the run
terminates before any port-discovery or probe operation (both counters
are zero); the failure kind is process-not-found when the listing stdout
was blank and no-credential-found when lines were present but none
carried an extractable token. -/
theorem c7_zero_candidates_amended (psOutput : List Char)
    (discover : Nat → List Nat) (probe : Nat → List Char → Bool)
    (h : extractCandidates (splitLines (trimChars psOutput)) = []) :
    (isBlank psOutput = true →
      runResolver psOutput discover probe
        = (Except.error RunError.processNotFound, 0, 0)) ∧
    (isBlank psOutput = false →
      runResolver psOutput discover probe
        = (Except.error RunError.noCredentialFound, 0, 0)) := by
  constructor
  · intro hb
    simp [runResolver, hb]
  · intro hb
    simp [runResolver, hb, h]

/-- C7 witness: the amended behaviour on a concrete token-less listing. -/
theorem c7_zero_candidates_witness :
    runResolver "12 sh".toList (fun _ => []) (fun _ _ => false)
      = (Except.error RunError.noCredentialFound, 0, 0) :=
  (c7_zero_candidates_amended "12 sh".toList (fun _ => []) (fun _ _ => false)
    (by decide)).2 (by decide)

end CheckQuota

namespace CheckQuota

/-! ## Lemmas about the pid Map and claim C8 -/

theorem mapUpsert_keys (m : List (Nat × ProcessCandidate)) (k : Nat)
    (v : ProcessCandidate) :
    (mapUpsert m k v).map Prod.fst =
      if k ∈ m.map Prod.fst then m.map Prod.fst else m.map Prod.fst ++ [k] := by
  unfold mapUpsert
  by_cases h : k ∈ m.map Prod.fst
  · have hany : (m.any (fun e => e.1 = k)) = true := by
      rw [List.any_eq_true]
      obtain ⟨e, he, hek⟩ := List.mem_map.mp h
      exact ⟨e, he, by simp [hek]⟩
    rw [if_pos h, hany]
    simp only [if_true, List.map_map]
    apply List.map_congr_left
    intro e _
    by_cases h2 : e.1 = k
    · simp [h2]
    · simp [h2]
  · have hany : (m.any (fun e => e.1 = k)) = false := by
      rw [List.any_eq_false]
      intro e he
      simp only [decide_eq_true_eq]
      intro hek
      exact h (List.mem_map.mpr ⟨e, he, hek⟩)
    rw [if_neg h, hany]
    simp

theorem mapUpsert_entry (m : List (Nat × ProcessCandidate)) (k : Nat)
    (v : ProcessCandidate) (e : Nat × ProcessCandidate)
    (he : e ∈ mapUpsert m k v) : e ∈ m ∨ e = (k, v) := by
  unfold mapUpsert at he
  by_cases h : (m.any (fun e => e.1 = k)) = true
  · rw [h] at he
    simp only [if_true] at he
    obtain ⟨e0, he0, heq⟩ := List.mem_map.mp he
    by_cases h2 : e0.1 = k
    · rw [if_pos h2] at heq
      exact Or.inr heq.symm
    · rw [if_neg h2] at heq
      exact Or.inl (heq ▸ he0)
  · rw [Bool.eq_false_iff.mpr h] at he
    simp only [Bool.false_eq_true, if_false] at he
    rcases List.mem_append.mp he with h1 | h1
    · exact Or.inl h1
    · exact Or.inr (List.mem_singleton.mp h1)

theorem buildFold_keys (cs : List ProcessCandidate) :
    ∀ m : List (Nat × ProcessCandidate), ((m.map Prod.fst).Nodup) →
      (((cs.foldl (fun m c => mapUpsert m c.pid c) m).map Prod.fst).Nodup ∧
        ∀ p, p ∈ (cs.foldl (fun m c => mapUpsert m c.pid c) m).map Prod.fst ↔
          p ∈ m.map Prod.fst ∨ p ∈ cs.map (fun c => c.pid)) := by
  induction cs with
  | nil => intro m h; simpa using h
  | cons c t ih =>
    intro m hm
    rw [List.foldl_cons]
    by_cases hk : c.pid ∈ m.map Prod.fst
    · have hkeys : (mapUpsert m c.pid c).map Prod.fst = m.map Prod.fst := by
        rw [mapUpsert_keys, if_pos hk]
      have hrec := ih (mapUpsert m c.pid c) (by rw [hkeys]; exact hm)
      refine ⟨hrec.1, ?_⟩
      intro p
      rw [hrec.2 p, hkeys]
      simp only [List.map_cons, List.mem_cons]
      constructor
      · rintro (hp | hp)
        · exact Or.inl hp
        · exact Or.inr (Or.inr hp)
      · rintro (hp | rfl | hp)
        · exact Or.inl hp
        · exact Or.inl hk
        · exact Or.inr hp
    · have hkeys : (mapUpsert m c.pid c).map Prod.fst = m.map Prod.fst ++ [c.pid] := by
        rw [mapUpsert_keys, if_neg hk]
      have hnodup : ((mapUpsert m c.pid c).map Prod.fst).Nodup := by
        rw [hkeys]
        simp only [List.nodup_append, List.nodup_singleton, List.disjoint_singleton]
        exact ⟨hm, trivial, hk⟩
      have hrec := ih (mapUpsert m c.pid c) hnodup
      refine ⟨hrec.1, ?_⟩
      intro p
      rw [hrec.2 p, hkeys]
      simp only [List.mem_append, List.mem_singleton, List.map_cons, List.mem_cons]
      tauto

theorem buildFold_entries (cs : List ProcessCandidate) (sup : List ProcessCandidate)
    (hcs : ∀ c ∈ cs, c ∈ sup) :
    ∀ m, (∀ e ∈ m, e.2.pid = e.1 ∧ e.2 ∈ sup) →
      ∀ e ∈ cs.foldl (fun m c => mapUpsert m c.pid c) m, e.2.pid = e.1 ∧ e.2 ∈ sup := by
  induction cs with
  | nil => intro m hm; simpa using hm
  | cons c t ih =>
    intro m hm
    rw [List.foldl_cons]
    apply ih (fun x hx => hcs x (by simp [hx]))
    intro e he
    rcases mapUpsert_entry m c.pid c e he with h1 | h1
    · exact hm e h1
    · subst h1
      exact ⟨rfl, hcs c (by simp)⟩

/-- C8.  For any raw listing in which pid `p` appears, the deduplicated
candidate set contains exactly one entry for `p`, and every deduplicated
entry is one of the raw candidates (so its token is one of the tokens
extracted for its pid). -/
theorem dedupeByPid_one_per_pid (cs : List ProcessCandidate) (p : Nat)
    (hp : p ∈ cs.map (fun c => c.pid)) :
    ((dedupeByPid cs).countP (fun c => decide (c.pid = p))) = 1 ∧
    ∀ c ∈ dedupeByPid cs, c ∈ cs := by
  have hkeys := buildFold_keys cs [] (by simp)
  have hent := buildFold_entries cs cs (fun c hc => hc) [] (by simp)
  constructor
  · have h1 : (dedupeByPid cs).countP (fun c => decide (c.pid = p))
        = (buildPidMap cs).countP (fun e => decide (e.2.pid = p)) := by
      unfold dedupeByPid
      rw [List.countP_map]
      rfl
    have h2 : (buildPidMap cs).countP (fun e => decide (e.2.pid = p))
        = (buildPidMap cs).countP (fun e => decide (e.1 = p)) := by
      apply List.countP_congr
      intro e he
      have hpid := (hent e he).1
      simp [hpid]
    have h3 : (buildPidMap cs).countP (fun e => decide (e.1 = p))
        = ((buildPidMap cs).map Prod.fst).countP (fun k => decide (k = p)) := by
      rw [List.countP_map]
      rfl
    rw [h1, h2, h3]
    exact countP_eq_one_of_nodup _ hkeys.1 p ((hkeys.2 p).mpr (Or.inr hp))
  · intro c hc
    unfold dedupeByPid at hc
    obtain ⟨e, he, rfl⟩ := List.mem_map.mp hc
    exact (hent e he).2

/-- C8 witness: the deduplication applied to a raw listing in which pid 12
appears twice. -/
theorem dedupeByPid_one_per_pid_witness :
    ((dedupeByPid [⟨12, "a-1".toList⟩, ⟨34, "b-2".toList⟩, ⟨12, "c-3".toList⟩]).countP
      (fun c => decide (c.pid = 12))) = 1 ∧
    ∀ c ∈ dedupeByPid [⟨12, "a-1".toList⟩, ⟨34, "b-2".toList⟩, ⟨12, "c-3".toList⟩],
      c ∈ [⟨12, "a-1".toList⟩, ⟨34, "b-2".toList⟩, ⟨12, "c-3".toList⟩] :=
  dedupeByPid_one_per_pid
    [⟨12, "a-1".toList⟩, ⟨34, "b-2".toList⟩, ⟨12, "c-3".toList⟩] 12 (by decide)

end CheckQuota

namespace CheckQuota

/-! ## Lemmas about credential extraction and claim C3 -/

/-- The separator class and the token class of the credential regex are
disjoint, so the greedy separator run never eats into the token. -/
theorem token_not_sep {c : Char} (h : isTokenChar c = true) : isSepChar c = false := by
  by_contra hc
  rw [Bool.not_eq_false] at hc
  unfold isSepChar isSpaceJS at hc
  simp only [Bool.or_eq_true, decide_eq_true_eq, or_assoc] at hc
  rcases hc with h1 | h1 | h1 | h1 | h1 | h1 | h1 <;> subst h1 <;>
    exact absurd h (by decide)

theorem stripCI_self_app (pat l : List Char) : stripCI pat (pat ++ l) = some l := by
  induction pat with
  | nil => rfl
  | cons c t ih => simp [stripCI, ih]

/-- Reduction of the anchored attempt once the flag literal has been
stripped. -/
theorem tryMatchAt_strip (l r1 : List Char) (h : stripCI csrfFlag l = some r1) :
    tryMatchAt l =
      if (r1.takeWhile isSepChar).isEmpty then none
      else if ((r1.dropWhile isSepChar).takeWhile isTokenChar).isEmpty then none
      else some ((r1.dropWhile isSepChar).takeWhile isTokenChar) := by
  unfold tryMatchAt
  rw [h]

/-- The anchored attempt succeeds on flag, separators, token, remainder. -/
theorem tryMatchAt_flag (seps tok rest : List Char)
    (h1 : seps ≠ []) (h2 : seps.all isSepChar = true)
    (h3 : tok ≠ []) (h4 : tok.all isTokenChar = true)
    (h5 : headNotToken rest = true) :
    tryMatchAt (csrfFlag ++ (seps ++ (tok ++ rest))) = some tok := by
  obtain ⟨t0, tt, rfl⟩ : ∃ t0 tt, tok = t0 :: tt := by
    cases tok with
    | nil => exact absurd rfl h3
    | cons a b => exact ⟨a, b, rfl⟩
  have ht0 : isTokenChar t0 = true := by
    simp only [List.all_cons, Bool.and_eq_true] at h4
    exact h4.1
  have hsep0 : isSepChar t0 = false := token_not_sep ht0
  have e2 : ((seps ++ ((t0 :: tt) ++ rest)).takeWhile isSepChar) = seps := by
    rw [takeWhile_append_all _ _ _ h2]
    simp [List.takeWhile_cons, hsep0]
  have e3 : ((seps ++ ((t0 :: tt) ++ rest)).dropWhile isSepChar) = (t0 :: tt) ++ rest := by
    rw [dropWhile_append_all _ _ _ h2]
    simp [List.dropWhile_cons, hsep0]
  have e4 : (((t0 :: tt) ++ rest).takeWhile isTokenChar) = t0 :: tt := by
    rw [takeWhile_append_all _ _ _ h4]
    cases rest with
    | nil => simp
    | cons r0 rr =>
      unfold headNotToken at h5
      rw [Bool.not_eq_true'] at h5
      simp [List.takeWhile_cons, h5]
  have hne : seps.isEmpty = false := by
    cases seps with
    | nil => exact absurd rfl h1
    | cons a b => rfl
  rw [tryMatchAt_strip _ _ (stripCI_self_app csrfFlag _), e2, e3, e4, hne]
  simp

/-- A successful anchored attempt at the head is the leftmost match. -/
theorem extractToken_of_tryMatch (l tok : List Char) (hne : l ≠ [])
    (h : tryMatchAt l = some tok) : extractToken l = some tok := by
  cases l with
  | nil => exact absurd rfl hne
  | cons c rest =>
    unfold extractToken
    rw [h]

/-- One step of the scan when the anchored attempt at the head fails. -/
theorem extractToken_cons_none (c : Char) (rest : List Char)
    (h : tryMatchAt (c :: rest) = none) :
    extractToken (c :: rest) = extractToken rest := by
  conv_lhs => rw [extractToken]
  rw [h]

/-- The scan walks over a region in which no attempt succeeds. -/
theorem extractToken_skip (pre l : List Char)
    (h : ∀ n, n < pre.length → tryMatchAt (List.drop n (pre ++ l)) = none) :
    extractToken (pre ++ l) = extractToken l := by
  induction pre with
  | nil => rfl
  | cons a t ih =>
    have h0 := h 0 (by simp)
    rw [List.drop_zero, List.cons_append] at h0
    rw [List.cons_append, extractToken_cons_none a (t ++ l) h0]
    exact ih (fun n hn => by
      have h2 := h (n + 1) (by simpa using Nat.succ_lt_succ hn)
      rwa [List.cons_append, List.drop_succ_cons] at h2)

/-- Every token produced by an anchored attempt is a non-empty run of
token-class characters. -/
theorem tryMatchAt_token_chars (l tok : List Char) (h : tryMatchAt l = some tok) :
    tok ≠ [] ∧ tok.all isTokenChar = true := by
  cases hs : stripCI csrfFlag l with
  | none =>
    unfold tryMatchAt at h
    rw [hs] at h
    cases h
  | some r1 =>
    rw [tryMatchAt_strip _ _ hs] at h
    by_cases he1 : (r1.takeWhile isSepChar).isEmpty = true
    · rw [if_pos he1] at h; cases h
    · rw [if_neg he1] at h
      by_cases he2 : ((r1.dropWhile isSepChar).takeWhile isTokenChar).isEmpty = true
      · rw [if_pos he2] at h; cases h
      · rw [if_neg he2] at h
        cases h
        refine ⟨?_, all_takeWhile _ _⟩
        intro hnil
        rw [hnil] at he2
        exact he2 rfl

/-- Every extracted token is a non-empty run of token-class characters. -/
theorem extractToken_token_chars (l tok : List Char) (h : extractToken l = some tok) :
    tok ≠ [] ∧ tok.all isTokenChar = true := by
  induction l with
  | nil => cases h
  | cons c rest ih =>
    unfold extractToken at h
    cases ht : tryMatchAt (c :: rest) with
    | some t2 =>
      rw [ht] at h
      cases h
      exact tryMatchAt_token_chars _ _ ht
    | none =>
      rw [ht] at h
      exact ih h

/-- Without a (case-insensitive) occurrence of the flag nothing is
extracted. -/
theorem extractToken_none_of_no_flag (l : List Char) (h : hasFlagCI l = false) :
    extractToken l = none := by
  induction l with
  | nil => rfl
  | cons c rest ih =>
    unfold hasFlagCI at h
    rw [Bool.or_eq_false_iff] at h
    have hstrip : stripCI csrfFlag (c :: rest) = none := by
      cases hs : stripCI csrfFlag (c :: rest) with
      | none => rfl
      | some r =>
        rw [hs] at h
        simp at h
    have ht : tryMatchAt (c :: rest) = none := by
      unfold tryMatchAt
      rw [hstrip]
    unfold extractToken
    rw [ht]
    exact ih h.2

/-- C3 counterexample.  The credential regex runs under the
case-insensitive flag, so an uppercase hex token is matched and
extracted as-is: the Locator emits a candidate whose token is not made
of lowercase hex digits and hyphens only. -/
theorem c3_lowercase_cex :
    extractCandidates (splitLines "1234 ./srv --csrf_token=ABC-12".toList)
      = [⟨1234, "ABC-12".toList⟩] ∧
    ("ABC-12".toList.all isLowerTokenChar) = false := by
  refine ⟨by decide, by decide⟩

/-- C3 amended.  For every command line containing the credential flag
(matched case-insensitively) followed by separators and a token value,
the Locator extracts exactly that value and, when the line also carries a
numeric pid field, emits a candidate with it; every extracted token is a
non-empty string of hex digits (of either case) and hyphens; a line
without the flag yields no candidate. -/
theorem c3_locator_extraction_amended :
    (∀ pre seps tok rest,
      (∀ n, n < pre.length →
        tryMatchAt (List.drop n (pre ++ (csrfFlag ++ (seps ++ (tok ++ rest))))) = none) →
      seps ≠ [] → seps.all isSepChar = true → tok ≠ [] → tok.all isTokenChar = true →
      headNotToken rest = true →
      extractToken (pre ++ (csrfFlag ++ (seps ++ (tok ++ rest)))) = some tok) ∧
    (∀ l t, extractToken l = some t → t ≠ [] ∧ t.all isTokenChar = true) ∧
    (∀ l, hasFlagCI l = false → extractToken l = none) ∧
    (∀ line pv t, parsePid (firstField (trimChars line)) = some pv →
      extractToken line = some t → lineCandidate line = some ⟨pv, t⟩) := by
  refine ⟨?_, ?_, ?_, ?_⟩
  · intro pre seps tok rest hpre h1 h2 h3 h4 h5
    rw [extractToken_skip pre _ hpre]
    apply extractToken_of_tryMatch
    · intro hnil
      rcases List.append_eq_nil.mp hnil with ⟨hflag, _⟩
      exact absurd hflag (by decide)
    · exact tryMatchAt_flag seps tok rest h1 h2 h3 h4 h5
  · exact fun l t h => extractToken_token_chars l t h
  · exact fun l h => extractToken_none_of_no_flag l h
  · intro line pv t h1 h2
    unfold lineCandidate
    rw [h1, h2]

end CheckQuota

namespace CheckQuota

/-! ## End-to-end sanity checks (the spec's scenario section) -/

/-- End-to-end scenario: one matching listing line with a token, one
listening socket line for that pid, a probe that answers only on that
port: the Resolver yields that port and token after one discovery and
one probe. -/
theorem endToEnd_success :
    runResolver "4242 ./ls --csrf_token=abcd-1234-ef00".toList
      (fun pid => getListeningPorts [some (if pid = 4242 then "tcp 127.0.0.1:42100 LISTEN".toList else [])])
      (fun p _ => p = 42100)
    = (Except.ok (42100, "abcd-1234-ef00".toList), 1, 1) := by rfl

/-- End-to-end failure scenario: a blank process listing terminates the
run at once with the process-not-found failure and no I/O. -/
theorem endToEnd_blank_listing :
    runResolver "  ".toList (fun _ => [42100]) (fun _ _ => true)
    = (Except.error RunError.processNotFound, 0, 0) := by rfl

end CheckQuota
